import Mathlib

/-!
# Search-state coordination of `frontend/src/App.js`

A shallow embedding of the state logic of the React components in
`src/frontend/src/App.js`: the facet selection update (`handleFacetChange`),
the `SearchBar` component (suggestion effect, key handling, submit), the
consolidated fetch effect of `ProductPage`, and the fetch effect of
`DetailsModal`.

Component state is an explicit record; every event handler and every effect
is a pure function from the state of the last render to the next state.
Asynchronous completions (timers, HTTP responses) are events of their own.
-/

namespace HybridSearch

/-! ## Facet selection (`handleFacetChange`, App.js 338-342 and 446-457) -/

/-- The three keys of `selectedFacets` that `Facets` passes to `onFacetChange`. -/
inductive FacetGroup where
  | categories
  | productTypes
  | brands
deriving DecidableEq, Repr

/-- The `selectedFacets` state: one array of ids per group. -/
structure FacetSelection where
  categories : List String
  productTypes : List String
  brands : List String
deriving DecidableEq, Repr

namespace FacetSelection

/-- Initial value given to `useState` (App.js 338-342). -/
def initial : FacetSelection :=
  { categories := [], productTypes := [], brands := [] }

/-- Property read `prevState[facetType]`. -/
def get (s : FacetSelection) : FacetGroup → List String
  | .categories => s.categories
  | .productTypes => s.productTypes
  | .brands => s.brands

/-- Object spread with one computed key: `{ ...prevState, [facetType]: selected }`. -/
def set (s : FacetSelection) (g : FacetGroup) (selected : List String) : FacetSelection :=
  match g with
  | .categories => { s with categories := selected }
  | .productTypes => { s with productTypes := selected }
  | .brands => { s with brands := selected }

end FacetSelection

/-- The updater passed to `setSelectedFacets` by `handleFacetChange`:
`includes` decides between `filter(id => id !== facetId)` and
`[...prevState[facetType], facetId]`. -/
def handleFacetChange (prevState : FacetSelection) (facetType : FacetGroup)
    (facetId : String) : FacetSelection :=
  let selected :=
    if (prevState.get facetType).contains facetId
    then (prevState.get facetType).filter (fun id => id != facetId)
    else prevState.get facetType ++ [facetId]
  prevState.set facetType selected

/-- A finite sequence of toggles applied from left to right. -/
def toggleAll (s : FacetSelection) : List (FacetGroup × String) → FacetSelection
  | [] => s
  | (g, id) :: rest => toggleAll (handleFacetChange s g id) rest

/-- Every group of a selection is duplicate free. -/
def FacetSelection.NoDup (s : FacetSelection) : Prop :=
  ∀ g, (s.get g).Nodup

/-! ## JavaScript strings -/

/-- The characters matched by `\s` and removed by `String.prototype.trim`:
ECMAScript WhiteSpace and LineTerminator code points. -/
def isJsWhiteSpace (c : Char) : Bool :=
  let n := c.toNat
  n == 9 || n == 10 || n == 11 || n == 12 || n == 13 || n == 32 || n == 160 || n == 5760
    || (8192 ≤ n && n ≤ 8202) || n == 8232 || n == 8233 || n == 8239 || n == 8287
    || n == 12288 || n == 65279

/-- The input's `onChange` normalisation `value.replace(/^\s+/, '')`. -/
def stripLeadingSpace (v : String) : String :=
  ⟨v.data.dropWhile isJsWhiteSpace⟩

/-- `String.prototype.trim`. -/
def jsTrim (v : String) : String :=
  ⟨((v.data.dropWhile isJsWhiteSpace).reverse.dropWhile isJsWhiteSpace).reverse⟩

/-! ## `SearchBar` together with the `searchQuery` / `searchTerm` state of `ProductPage` -/

/-- One element of the suggest response; `name` and `brand` may be missing. -/
structure Suggestion where
  id : Nat
  name : Option String
  brand : Option String
deriving DecidableEq, Repr

/-- State read and written by `SearchBar` (App.js 60-158) and by `handleSearch`
(App.js 441-444).  `now`, `timer`, `lookups` and `inflight` make the
`setTimeout` of the suggestion effect and its HTTP requests explicit. -/
structure SearchState where
  /-- `searchQuery`: the live input buffer, owned by `ProductPage`. -/
  searchQuery : String
  /-- `searchTerm`: the submitted query, sent as `query` by both fetches. -/
  searchTerm : String
  suggestions : List Suggestion
  showSuggest : Bool
  activeIndex : Int
  /-- Current time. -/
  now : Nat
  /-- The pending `setTimeout` of the suggestion effect: deadline and captured `q`. -/
  timer : Option (Nat × String)
  /-- Every `GET /api/products/suggest` issued so far, as `(prefix, limit)`, oldest first. -/
  lookups : List (String × Nat)
  /-- Suggest requests whose response has not arrived yet. -/
  inflight : Nat
deriving DecidableEq, Repr

namespace SearchState

/-- State after mount: `useState('')`, `useState([])`, `useState(false)`, `useState(-1)`;
the first run of the suggestion effect sees an empty buffer and starts no timer. -/
def init : SearchState :=
  { searchQuery := "", searchTerm := "", suggestions := [], showSuggest := false,
    activeIndex := -1, now := 0, timer := none, lookups := [], inflight := 0 }

end SearchState

/-- Keys distinguished by `handleKeyDown`. -/
inductive Key where
  | enter
  | arrowDown
  | arrowUp
  | escape
  | other
deriving DecidableEq, Repr

/-- `handleSearch` of `ProductPage`: `setSearchTerm(searchQuery)`, where `searchQuery`
is the value captured by the render that created the handler.  `render` is that
render, `pending` the state updates already queued by the calling handler. -/
def handleSearch (render pending : SearchState) : SearchState :=
  { pending with searchTerm := render.searchQuery }

/-- `selectSuggestion(item)` (App.js 88-93). -/
def selectSuggestion (s : SearchState) (item : Option Suggestion) : SearchState :=
  match item with
  | none => s
  | some it =>
    let s1 := { s with searchQuery := jsTrim (it.name.getD "") }
    let s2 := { s1 with showSuggest := false }
    handleSearch s s2

/-- `handleSearchClick` (App.js 117-123). -/
def handleSearchClick (s : SearchState) : SearchState :=
  let s1 := { s with showSuggest := false }
  let s2 := { s1 with suggestions := [] }
  let s3 := { s2 with searchQuery := jsTrim s2.searchQuery }
  handleSearch s s3

/-- `handleKeyDown(event)` (App.js 95-115). -/
def handleKeyDown (s : SearchState) : Key → SearchState
  | .enter =>
    if s.showSuggest && decide (0 ≤ s.activeIndex)
        && decide (s.activeIndex < (s.suggestions.length : Int)) then
      selectSuggestion s (s.suggestions.get? s.activeIndex.toNat)
    else
      let s1 := { s with showSuggest := false }
      let s2 := { s1 with suggestions := [] }
      let s3 := { s2 with searchQuery := jsTrim s2.searchQuery }
      handleSearch s s3
  | .arrowDown =>
    { s with activeIndex := min (s.activeIndex + 1) ((s.suggestions.length : Int) - 1) }
  | .arrowUp =>
    { s with activeIndex := max (s.activeIndex - 1) 0 }
  | .escape => { s with showSuggest := false }
  | .other => s

/-- Body of the suggestion effect (App.js 65-86) for the buffer of `s`:
a trimmed buffer of length at least one arms a 180 unit timer capturing `q`,
otherwise the list is cleared and the panel closed. -/
def suggestEffect (s : SearchState) : SearchState :=
  let q := jsTrim s.searchQuery
  if 1 ≤ q.length then
    { s with timer := some (s.now + 180, q) }
  else
    { s with suggestions := [], showSuggest := false }

/-- Commit of a render: the effect depends on `[searchQuery]`, so it runs again only
when the buffer differs from that of the last render; its cleanup
`clearTimeout(timer)` runs first. -/
def commit (old new : SearchState) : SearchState :=
  if new.searchQuery = old.searchQuery then new
  else suggestEffect { new with timer := none }

/-- The timer callback up to its `await`: one suggest request with
`params: { prefix: q, limit: 8 }`. -/
def fireTimer (s : SearchState) (q : String) : SearchState :=
  { s with timer := none, lookups := s.lookups ++ [(q, 8)], inflight := s.inflight + 1 }

/-- Time passes by `dt`; a timer whose deadline is reached fires. -/
def advance (s : SearchState) (dt : Nat) : SearchState :=
  let s1 := { s with now := s.now + dt }
  match s.timer with
  | some (deadline, q) => if deadline ≤ s1.now then fireTimer s1 q else s1
  | none => s1

/-- Everything that can happen to the `SearchBar`. -/
inductive SearchEvent where
  /-- `onKeyDown` of the input. -/
  | keyDown (k : Key)
  /-- `onChange` of the input with `e.target.value = raw`. -/
  | change (raw : String)
  /-- `onClick` of the Search button. -/
  | searchClick
  /-- `onMouseEnter` of the rendered suggestion number `idx`. -/
  | mouseEnter (idx : Nat)
  /-- `onMouseDown` of the rendered suggestion number `idx`. -/
  | mouseDown (idx : Nat)
  /-- `onFocus` of the input. -/
  | focus
  /-- The 100 unit timer armed by `onBlur` fires. -/
  | blurTimeout
  /-- Time passes. -/
  | advance (dt : Nat)
  /-- A suggest request resolves with `res.data || []` equal to `data`. -/
  | lookupSuccess (data : List Suggestion)
  /-- A suggest request rejects. -/
  | lookupFailure
deriving DecidableEq, Repr

/-- The handler or continuation run by an event, on the state of the last render.
Suggestion rows exist only while `showSuggest && suggestions.length > 0`, so mouse
events on row `idx` need the panel open and `idx` in range; a response needs a
request in flight. -/
def react (s : SearchState) : SearchEvent → SearchState
  | .keyDown k => handleKeyDown s k
  | .change raw => { s with searchQuery := stripLeadingSpace raw }
  | .searchClick => handleSearchClick s
  | .mouseEnter idx =>
    if s.showSuggest && decide (idx < s.suggestions.length) then
      { s with activeIndex := (idx : Int) }
    else s
  | .mouseDown idx =>
    if s.showSuggest && decide (idx < s.suggestions.length) then
      selectSuggestion s (s.suggestions.get? idx)
    else s
  | .focus => if s.suggestions.length ≠ 0 then { s with showSuggest := true } else s
  | .blurTimeout => { s with showSuggest := false }
  | .advance dt => advance s dt
  | .lookupSuccess data =>
    if 0 < s.inflight then
      { s with suggestions := data, showSuggest := true, activeIndex := -1,
               inflight := s.inflight - 1 }
    else s
  | .lookupFailure =>
    if 0 < s.inflight then { s with suggestions := [], inflight := s.inflight - 1 }
    else s

/-- One event followed by the commit of the render it causes. -/
def searchStep (s : SearchState) (e : SearchEvent) : SearchState :=
  commit s (react s e)

/-- A sequence of events, oldest first. -/
def searchRun (s : SearchState) : List SearchEvent → SearchState
  | [] => s
  | e :: rest => searchRun (searchStep s e) rest

/-- A burst of input changes: each entry is the time since the previous event and
the raw value handed to `onChange`. -/
def burst : List (Nat × String) → List SearchEvent
  | [] => []
  | (dt, raw) :: rest => .advance dt :: .change raw :: burst rest

/-- Every entry of the burst really changes the live buffer, starting from buffer `cur`. -/
def changesBuffer (cur : String) : List (Nat × String) → Bool
  | [] => true
  | (_, raw) :: rest =>
    stripLeadingSpace raw != cur && changesBuffer (stripLeadingSpace raw) rest

/-- State right after a buffer change while no lookup has been issued: the timer, if
any, is the one armed by that change. -/
def Armed (s : SearchState) : Prop :=
  s.lookups = [] ∧
    s.timer = if 1 ≤ (jsTrim s.searchQuery).length
      then some (s.now + 180, jsTrim s.searchQuery) else none

/-- The live buffer after a burst that started from buffer `cur`. -/
def finalBuffer (cur : String) : List (Nat × String) → String
  | [] => cur
  | (_, raw) :: rest => finalBuffer (stripLeadingSpace raw) rest

/-- The request parameter `query: searchTerm` shared by `fetchProducts` and `fetchFacets`. -/
def refreshQuery (s : SearchState) : String := s.searchTerm

/-- The scenario of the specification: type `red sho`, pause 200 units, the lookup
answers with one candidate named `Red Shoes`, then ArrowDown and Enter. -/
def redShoes : List SearchEvent :=
  [.advance 0, .change "red sho", .advance 200,
   .lookupSuccess [{ id := 1, name := some "Red Shoes", brand := some "Acme" }],
   .keyDown .arrowDown, .keyDown .enter]

/-! ## Consolidated fetch effect of `ProductPage` (App.js 368-439) -/

/-- One element of the search response. -/
structure Product where
  id : Nat
  name : String
deriving DecidableEq, Repr

/-- The facets response; the initial state has no `brands` key, which `Facets`
reads through its default `brands = []`. -/
structure FacetCounts where
  categories : List (String × Nat)
  product_types : List (String × Nat)
  brands : List (String × Nat)
deriving DecidableEq, Repr

/-- One run of the consolidated effect: its own `cancelled` variable and which of
its two fetches have settled. -/
structure Refresh where
  cancelled : Bool
  facetsSettled : Bool
  productsSettled : Bool
deriving DecidableEq, Repr

/-- The state written by the fetch effect, and every run of the effect so far
(oldest first; run number `i` is the entry at position `i`). -/
structure PageState where
  products : List Product
  facets : FacetCounts
  loading : Bool
  runs : List Refresh
deriving DecidableEq, Repr

namespace PageState

/-- State before the effect has run: `useState([])`,
`useState({ categories: [], product_types: [] })`, `useState(false)`. -/
def init : PageState :=
  { products := [], facets := { categories := [], product_types := [], brands := [] },
    loading := false, runs := [] }

end PageState

/-- What can happen to the fetch effect.  A response carries the number of the run
whose fetch settles; `none` is a rejected request. -/
inductive PageEvent where
  /-- The effect runs (mount, or `fetchFacets` / `fetchProducts` changed identity). -/
  | refresh
  /-- `fetchFacets` of run `i` settles. -/
  | facetsResponse (i : Nat) (r : Option FacetCounts)
  /-- `fetchProducts` of run `i` settles. -/
  | productsResponse (i : Nat) (r : Option (List Product))
deriving DecidableEq, Repr

/-- Cleanup returned by the previous run of an effect: `cancelled = true` in the
closure of that run, which is the newest entry. -/
def cancelLast : List Refresh → List Refresh
  | [] => []
  | [r] => [{ r with cancelled := true }]
  | r :: rest => r :: cancelLast rest

/-- The effect body up to the `await`: cleanup of the previous run, then
`setLoading(true)` and both fetches issued. -/
def startRefresh (s : PageState) : PageState :=
  { s with loading := true,
           runs := cancelLast s.runs ++
             [{ cancelled := false, facetsSettled := false, productsSettled := false }] }

/-- The `finally` block of `run`, reached when `Promise.all` has resolved, that is when
both fetches of the run have settled: `if (!cancelled) setLoading(false)`. -/
def afterSettle (s : PageState) (r : Refresh) : PageState :=
  if r.facetsSettled && r.productsSettled then
    if !r.cancelled then { s with loading := false } else s
  else s

/-- Continuation of `fetchFacets` for run `i`: `setFacets(response.data)` on success,
a log line on failure; a fetch settles once. -/
def settleFacets (s : PageState) (i : Nat) (r : Option FacetCounts) : PageState :=
  match s.runs.get? i with
  | none => s
  | some run =>
    if run.facetsSettled then s
    else
      let s1 := match r with
        | some d => { s with facets := d }
        | none => s
      let run1 := { run with facetsSettled := true }
      afterSettle { s1 with runs := s1.runs.set i run1 } run1

/-- Continuation of `fetchProducts` for run `i`: `setProducts(response.data)` on
success (the tracker call writes no component state), a log line on failure. -/
def settleProducts (s : PageState) (i : Nat) (r : Option (List Product)) : PageState :=
  match s.runs.get? i with
  | none => s
  | some run =>
    if run.productsSettled then s
    else
      let s1 := match r with
        | some d => { s with products := d }
        | none => s
      let run1 := { run with productsSettled := true }
      afterSettle { s1 with runs := s1.runs.set i run1 } run1

/-- One event of the fetch effect. -/
def pageStep (s : PageState) : PageEvent → PageState
  | .refresh => startRefresh s
  | .facetsResponse i r => settleFacets s i r
  | .productsResponse i r => settleProducts s i r

/-- A sequence of events, oldest first. -/
def pageRun (s : PageState) : List PageEvent → PageState
  | [] => s
  | e :: rest => pageRun (pageStep s e) rest

/-- Both fetches of run `i` have settled. -/
def settled (s : PageState) (i : Nat) : Bool :=
  match s.runs.get? i with
  | some r => r.facetsSettled && r.productsSettled
  | none => false

/-- The run an event belongs to, if it is a response. -/
def PageEvent.owner : PageEvent → Option Nat
  | .refresh => none
  | .facetsResponse i _ => some i
  | .productsResponse i _ => some i

/-- Number of steps of the trace at which `loading` goes from `true` to `false`. -/
def falls (s : PageState) : List PageEvent → Nat
  | [] => 0
  | e :: rest =>
    (if s.loading && !(pageStep s e).loading then 1 else 0) + falls (pageStep s e) rest

/-- Number of steps of the trace at which a response of run `i` takes `loading` from
`true` to `false`. -/
def fallsBy (i : Nat) (s : PageState) : List PageEvent → Nat
  | [] => 0
  | e :: rest =>
    (if s.loading && !(pageStep s e).loading && decide (e.owner = some i) then 1 else 0)
      + fallsBy i (pageStep s e) rest

/-- The trace starts no refresh. -/
def noRefresh : List PageEvent → Bool
  | [] => true
  | .refresh :: _ => false
  | _ :: rest => noRefresh rest

/-! ## Fetch effect of `DetailsModal` (App.js 256-279, 362-366) -/

/-- The entity returned by `GET /api/products/id/<id>`. -/
structure Detail where
  id : Nat
  name : String
deriving DecidableEq, Repr

/-- One run of the `DetailsModal` effect: its own `cancelled` variable and whether
its request is outstanding. -/
structure DetailRun where
  cancelled : Bool
  pending : Bool
deriving DecidableEq, Repr

/-- State of the detail view: `detailOpen` and `activeProductId` of `ProductPage`,
`loading`, `error`, `data` of `DetailsModal`, and every run of its effect. -/
structure ModalState where
  detailOpen : Bool
  activeProductId : Option Nat
  loading : Bool
  error : Option String
  data : Option Detail
  runs : List DetailRun
deriving DecidableEq, Repr

namespace ModalState

/-- State after mount: the first run of the effect sees `open = false` and returns. -/
def init : ModalState :=
  { detailOpen := false, activeProductId := none, loading := false, error := none,
    data := none, runs := [{ cancelled := false, pending := false }] }

end ModalState

/-- What can happen to the detail view; `none` is a rejected request. -/
inductive ModalEvent where
  | openDetails (id : Nat)
  | closeDetails
  | response (i : Nat) (r : Option Detail)
deriving DecidableEq, Repr

/-- JavaScript truthiness of `productId`: `null` and `0` are falsy. -/
def truthyId : Option Nat → Bool
  | none => false
  | some n => n != 0

/-- Cleanup of the previous run of the `DetailsModal` effect. -/
def cancelLastDetail : List DetailRun → List DetailRun
  | [] => []
  | [r] => [{ r with cancelled := true }]
  | r :: rest => r :: cancelLastDetail rest

/-- `fetchDetails()` up to its `await`, after the cleanup of the previous run. -/
def detailEffect (s : ModalState) : ModalState :=
  let runs := cancelLastDetail s.runs
  if !s.detailOpen || !truthyId s.activeProductId then
    { s with runs := runs ++ [{ cancelled := false, pending := false }] }
  else
    { s with loading := true, error := none,
             runs := runs ++ [{ cancelled := false, pending := true }] }

/-- Commit of a render of `DetailsModal`: the effect depends on `[open, productId]`. -/
def modalCommit (old new : ModalState) : ModalState :=
  if new.detailOpen = old.detailOpen ∧ new.activeProductId = old.activeProductId then new
  else detailEffect new

/-- Continuation of `fetchDetails` of run `i` after the `await`: `try`, `catch` and
`finally` all test the run's own `cancelled`. -/
def settleDetail (s : ModalState) (i : Nat) (r : Option Detail) : ModalState :=
  match s.runs.get? i with
  | none => s
  | some run =>
    if !run.pending then s
    else
      let s0 := { s with runs := s.runs.set i { run with pending := false } }
      let s1 := match r with
        | some d => if !run.cancelled then { s0 with data := some d } else s0
        | none =>
          if !run.cancelled then { s0 with error := some "Failed to load product details" }
          else s0
      if !run.cancelled then { s1 with loading := false } else s1

/-- One event of the detail view followed by the commit of the render it causes. -/
def modalStep (s : ModalState) : ModalEvent → ModalState
  | .openDetails id => modalCommit s { s with activeProductId := some id, detailOpen := true }
  | .closeDetails => modalCommit s { s with detailOpen := false }
  | .response i r => settleDetail s i r

/-- A sequence of events, oldest first. -/
def modalRun (s : ModalState) : List ModalEvent → ModalState
  | [] => s
  | e :: rest => modalRun (modalStep s e) rest

/-- What the detail view displays: `data`, `error`, `loading`. -/
def ModalState.view (s : ModalState) : Option Detail × Option String × Bool :=
  (s.data, s.error, s.loading)

/-! ## Invariants and traces used by the theorems -/

/-- Every run of the fetch effect except the newest has been cancelled. -/
def OlderCancelled (s : PageState) : Prop :=
  ∀ (j : Nat) (r : Refresh), j + 1 < s.runs.length → s.runs.get? j = some r → r.cancelled = true

/-- Run `i` is the newest run of the fetch effect and has not been superseded:
all older runs are cancelled, run `i` is not, and `loading` is still `true`
exactly if run `i` has a fetch outstanding. -/
def Latest (s : PageState) (i : Nat) : Prop :=
  s.runs.length = i + 1
    ∧ (∀ (j : Nat) (r : Refresh), j < i → s.runs.get? j = some r → r.cancelled = true)
    ∧ (∀ r : Refresh, s.runs.get? i = some r → r.cancelled = false)
    ∧ s.loading = !settled s i

/-- Summary of what the settling of a fetch of run `k` does to the state: nothing, or
one more flag set in run `k` (whose two flags were not both set before) and `loading`
cleared if the run is now fully settled and not cancelled. -/
def Settles (s : PageState) (k : Nat) (t : PageState) : Prop :=
  t = s ∨ ∃ run run1 : Refresh,
    s.runs.get? k = some run ∧ run1.cancelled = run.cancelled
      ∧ (run.facetsSettled && run.productsSettled) = false
      ∧ t.runs = s.runs.set k run1
      ∧ t.loading = (if (run1.facetsSettled && run1.productsSettled) && !run1.cancelled
          then false else s.loading)

/-- Run `i` exists and has been cancelled. -/
def Superseded (s : PageState) (i : Nat) : Prop :=
  ∃ r : Refresh, s.runs.get? i = some r ∧ r.cancelled = true

/-- The state right after a refresh is started at the end of the trace `pre`. -/
def started (pre : List PageEvent) : PageState :=
  pageStep (pageRun PageState.init pre) .refresh

/-- The number of the run started by `started pre`. -/
def newest (pre : List PageEvent) : Nat :=
  (pageRun PageState.init pre).runs.length

/-- The facets fetch of run `i` has settled. -/
def facetsDone (s : PageState) (i : Nat) : Bool :=
  match s.runs.get? i with
  | some r => r.facetsSettled
  | none => false

/-- The products fetch of run `i` has settled. -/
def productsDone (s : PageState) (i : Nat) : Bool :=
  match s.runs.get? i with
  | some r => r.productsSettled
  | none => false

/-- The trace contains a facets response, successful or failed, of run `i`. -/
def facetsArrived (i : Nat) : List PageEvent → Bool
  | [] => false
  | .facetsResponse k _ :: rest => decide (k = i) || facetsArrived i rest
  | _ :: rest => facetsArrived i rest

/-- The trace contains a products response, successful or failed, of run `i`. -/
def productsArrived (i : Nat) : List PageEvent → Bool
  | [] => false
  | .productsResponse k _ :: rest => decide (k = i) || productsArrived i rest
  | _ :: rest => productsArrived i rest

/-- Two overlapping refreshes whose responses arrive newest first. -/
def staleLast : List PageEvent :=
  [.refresh, .refresh,
   .productsResponse 1 (some [{ id := 2, name := "B" }]),
   .facetsResponse 1 (some { categories := [("b", 1)], product_types := [], brands := [] }),
   .productsResponse 0 (some [{ id := 1, name := "A" }]),
   .facetsResponse 0 (some { categories := [("a", 1)], product_types := [], brands := [] })]

/-- The newer of the two refreshes alone, with the same responses. -/
def latestAlone : List PageEvent :=
  [.refresh,
   .productsResponse 0 (some [{ id := 2, name := "B" }]),
   .facetsResponse 0 (some { categories := [("b", 1)], product_types := [], brands := [] })]

/-- Two overlapping refreshes; the facets request of the first one fails. -/
def superseded : List PageEvent :=
  [.refresh, .refresh,
   .facetsResponse 0 none, .productsResponse 0 (some [{ id := 1, name := "A" }]),
   .facetsResponse 1 (some { categories := [("b", 1)], product_types := [], brands := [] }),
   .productsResponse 1 (some [{ id := 2, name := "B" }])]

/-! # Theorems -/

/-! ## Facet selection -/

theorem FacetSelection.get_set_same (s : FacetSelection) (g : FacetGroup) (l : List String) :
    (s.set g l).get g = l := by
  cases g <;> rfl

theorem FacetSelection.get_set_other (s : FacetSelection) (g h : FacetGroup) (l : List String)
    (hne : h ≠ g) : (s.set g l).get h = s.get h := by
  cases g <;> cases h <;> first | rfl | exact absurd rfl hne

theorem FacetSelection.set_get (s : FacetSelection) (g : FacetGroup) :
    s.set g (s.get g) = s := by
  cases g <;> rfl

theorem FacetSelection.set_set (s : FacetSelection) (g : FacetGroup) (l m : List String) :
    (s.set g l).set g m = s.set g m := by
  cases g <;> rfl

theorem filter_ne_append_self (l : List String) (x : String) :
    (l ++ [x]).filter (fun id => id != x) = l.filter (fun id => id != x) := by
  simp [List.filter_append]

theorem filter_ne_of_not_mem (l : List String) (x : String) (h : x ∉ l) :
    l.filter (fun id => id != x) = l := by
  rw [List.filter_eq_self]
  intro a ha
  have : a ≠ x := fun e => h (e ▸ ha)
  simpa using this

/-- Unfolded form of one toggle on a present id. -/
theorem handleFacetChange_present (s : FacetSelection) (g : FacetGroup) (x : String)
    (h : x ∈ s.get g) :
    handleFacetChange s g x = s.set g ((s.get g).filter (fun id => id != x)) := by
  simp [handleFacetChange, h]

/-- Unfolded form of one toggle on an absent id. -/
theorem handleFacetChange_absent (s : FacetSelection) (g : FacetGroup) (x : String)
    (h : x ∉ s.get g) :
    handleFacetChange s g x = s.set g (s.get g ++ [x]) := by
  simp [handleFacetChange, h]

theorem handleFacetChange_get (s : FacetSelection) (g h : FacetGroup) (x : String) :
    (handleFacetChange s g x).get h =
      if h = g then
        (if x ∈ s.get g then (s.get g).filter (fun id => id != x) else s.get g ++ [x])
      else s.get h := by
  by_cases hg : h = g
  · subst hg
    by_cases hx : x ∈ s.get h
    · simp [handleFacetChange_present s h x hx, FacetSelection.get_set_same, hx]
    · simp [handleFacetChange_absent s h x hx, FacetSelection.get_set_same, hx]
  · by_cases hx : x ∈ s.get g
    · simp [handleFacetChange_present s g x hx, FacetSelection.get_set_other s g h _ hg, hg]
    · simp [handleFacetChange_absent s g x hx, FacetSelection.get_set_other s g h _ hg, hg]

theorem not_mem_filter_ne (l : List String) (x : String) :
    x ∉ l.filter (fun id => id != x) := by
  simp [List.mem_filter]

theorem nodup_toggle (l : List String) (x : String) (h : l.Nodup) :
    (if x ∈ l then l.filter (fun id => id != x) else l ++ [x]).Nodup := by
  by_cases hx : x ∈ l
  · simp only [hx, if_true]
    exact h.filter _
  · simp only [hx, if_false]
    rw [List.nodup_append]
    refine ⟨h, List.nodup_singleton x, ?_⟩
    intro a ha hb
    simp at hb
    exact hx (hb ▸ ha)

theorem handleFacetChange_noDup (s : FacetSelection) (g : FacetGroup) (x : String)
    (hs : s.NoDup) : (handleFacetChange s g x).NoDup := by
  intro h
  rw [handleFacetChange_get]
  by_cases hg : h = g
  · simp only [hg, if_true]
    exact nodup_toggle _ _ (hs g)
  · simp only [hg, if_false]
    exact hs h

theorem toggleAll_noDup (ts : List (FacetGroup × String)) :
    ∀ s : FacetSelection, s.NoDup → (toggleAll s ts).NoDup := by
  induction ts with
  | nil => intro s hs; exact hs
  | cons t rest ih =>
    intro s hs
    obtain ⟨g, x⟩ := t
    exact ih _ (handleFacetChange_noDup s g x hs)

/-- C3: `handleFacetChange` on `(g, id)` returns a selection whose group `g` is `s[g]`
without `id` when `id` is in `s[g]`, and `s[g]` with `id` appended at the end when it
is not; every other group is the one of `s`. -/
theorem handleFacetChange_contract (s : FacetSelection) (g : FacetGroup) (id : String) :
    (handleFacetChange s g id).get g =
        (if id ∈ s.get g then (s.get g).filter (fun y => y != id) else s.get g ++ [id])
      ∧ ∀ h : FacetGroup, (handleFacetChange s g id).get h =
          if h = g then (handleFacetChange s g id).get g else s.get h := by
  refine ⟨?_, ?_⟩
  · simpa using handleFacetChange_get s g g id
  · intro h
    by_cases hg : h = g
    · simp [hg]
    · simpa [hg] using handleFacetChange_get s g h id

/-- C2, counterexample: toggling the present id `"a"` of `["a", "b"]` twice gives
`["b", "a"]`, not the original list. -/
theorem toggle_twice_reorders :
    handleFacetChange
        (handleFacetChange { categories := ["a", "b"], productTypes := [], brands := [] }
          .categories "a") .categories "a"
      ≠ { categories := ["a", "b"], productTypes := [], brands := [] } := by
  decide

/-- C2, amended: toggling `(g, id)` twice returns `s` itself when `id` was not in
`s[g]`; when it was, group `g` becomes `s[g]` without `id` followed by `id`, the other
groups are those of `s`, and in both cases every group has the members it had in `s`. -/
theorem toggle_twice (s : FacetSelection) (g : FacetGroup) (id : String) :
    handleFacetChange (handleFacetChange s g id) g id =
        (if id ∈ s.get g then s.set g ((s.get g).filter (fun y => y != id) ++ [id]) else s)
      ∧ ∀ (h : FacetGroup) (y : String),
          y ∈ (handleFacetChange (handleFacetChange s g id) g id).get h ↔ y ∈ s.get h := by
  have key : handleFacetChange (handleFacetChange s g id) g id =
      (if id ∈ s.get g then s.set g ((s.get g).filter (fun y => y != id) ++ [id]) else s) := by
    by_cases hx : id ∈ s.get g
    · have h1 := handleFacetChange_present s g id hx
      have h2 : id ∉ (handleFacetChange s g id).get g := by
        rw [h1, FacetSelection.get_set_same]; exact not_mem_filter_ne _ _
      rw [handleFacetChange_absent _ g id h2, h1, FacetSelection.get_set_same,
        FacetSelection.set_set]
      simp [hx]
    · have h1 := handleFacetChange_absent s g id hx
      have h2 : id ∈ (handleFacetChange s g id).get g := by
        rw [h1, FacetSelection.get_set_same]; simp
      rw [handleFacetChange_present _ g id h2, h1, FacetSelection.get_set_same,
        FacetSelection.set_set, filter_ne_append_self, filter_ne_of_not_mem _ _ hx,
        FacetSelection.set_get]
      simp [hx]
  refine ⟨key, ?_⟩
  intro h y
  rw [key]
  by_cases hx : id ∈ s.get g
  · simp only [hx, if_true]
    by_cases hg : h = g
    · subst hg
      rw [FacetSelection.get_set_same]
      simp only [List.mem_append, List.mem_filter, List.mem_singleton]
      constructor
      · rintro (⟨hy, _⟩ | rfl)
        · exact hy
        · exact hx
      · intro hy
        by_cases e : y = id
        · exact Or.inr e
        · exact Or.inl ⟨hy, by simpa using e⟩
    · rw [FacetSelection.get_set_other _ _ _ _ hg]
  · simp [hx]

/-- C10: starting from the initial selection, after every finite sequence of toggles
each of the three group lists is free of duplicates. -/
theorem toggleAll_initial_nodup (ts : List (FacetGroup × String)) :
    (toggleAll FacetSelection.initial ts).categories.Nodup
      ∧ (toggleAll FacetSelection.initial ts).productTypes.Nodup
      ∧ (toggleAll FacetSelection.initial ts).brands.Nodup := by
  have h0 : FacetSelection.initial.NoDup := by
    intro g; cases g <;> exact List.nodup_nil
  have h := toggleAll_noDup ts _ h0
  exact ⟨h .categories, h .productTypes, h .brands⟩

/-! ## `SearchBar` -/

theorem searchRun_append (s : SearchState) (xs ys : List SearchEvent) :
    searchRun s (xs ++ ys) = searchRun (searchRun s xs) ys := by
  induction xs generalizing s with
  | nil => rfl
  | cons e rest ih => exact ih (searchStep s e)

theorem burst_append (xs ys : List (Nat × String)) :
    burst (xs ++ ys) = burst xs ++ burst ys := by
  induction xs with
  | nil => rfl
  | cons c rest ih =>
    obtain ⟨dt, raw⟩ := c
    simp [burst, ih]

theorem advance_searchQuery (s : SearchState) (dt : Nat) :
    (advance s dt).searchQuery = s.searchQuery := by
  unfold advance
  rcases s.timer with _ | ⟨d, q⟩
  · rfl
  · simp only
    split_ifs <;> rfl

theorem searchStep_advance (s : SearchState) (dt : Nat) :
    searchStep s (.advance dt) = advance s dt := by
  simp [searchStep, react, commit, advance_searchQuery]

/-- While the armed timer is not due, letting time pass issues nothing. -/
theorem advance_armed (s : SearchState) (dt : Nat) (h : Armed s)
    (hq : dt < 180 ∨ s.timer = none) :
    (advance s dt).lookups = [] ∧ (advance s dt).searchQuery = s.searchQuery := by
  refine ⟨?_, advance_searchQuery s dt⟩
  obtain ⟨hl, ht⟩ := h
  unfold advance
  rcases hq with hq | hq
  · by_cases hlen : 1 ≤ (jsTrim s.searchQuery).length
    · rw [if_pos hlen] at ht
      rw [ht]
      have : ¬ (s.now + 180 ≤ s.now + dt) := by omega
      simp [this, hl]
    · rw [if_neg hlen] at ht
      rw [ht]
      exact hl
  · rw [hq]
    exact hl

/-- A change of the live buffer replaces the timer by one for the new buffer. -/
theorem change_armed (s : SearchState) (raw : String) (hl : s.lookups = [])
    (hne : stripLeadingSpace raw ≠ s.searchQuery) :
    Armed (searchStep s (.change raw))
      ∧ (searchStep s (.change raw)).searchQuery = stripLeadingSpace raw := by
  by_cases hlen : 1 ≤ (jsTrim (stripLeadingSpace raw)).length
  · simp [searchStep, react, commit, hne, suggestEffect, hlen, Armed, hl]
  · simp [searchStep, react, commit, hne, suggestEffect, hlen, Armed, hl]

theorem burst_entry_armed (s : SearchState) (dt : Nat) (raw : String) (h : Armed s)
    (hq : dt < 180 ∨ s.timer = none) (hne : stripLeadingSpace raw ≠ s.searchQuery) :
    Armed (searchRun s (burst [(dt, raw)]))
      ∧ (searchRun s (burst [(dt, raw)])).searchQuery = stripLeadingSpace raw := by
  have ha := advance_armed s dt h hq
  simp only [burst, searchRun, searchStep_advance]
  exact change_armed (advance s dt) raw ha.1 (by rw [ha.2]; exact hne)

theorem burst_armed (cs : List (Nat × String)) :
    ∀ s : SearchState, Armed s → (∀ p ∈ cs, p.1 < 180) →
      changesBuffer s.searchQuery cs = true →
      Armed (searchRun s (burst cs))
        ∧ (searchRun s (burst cs)).searchQuery = finalBuffer s.searchQuery cs := by
  induction cs with
  | nil => intro s h _ _; exact ⟨h, rfl⟩
  | cons c rest ih =>
    intro s h hgap hchg
    obtain ⟨dt, raw⟩ := c
    simp only [changesBuffer, Bool.and_eq_true, bne_iff_ne, ne_eq] at hchg
    have h1 := burst_entry_armed s dt raw h (Or.inl (hgap (dt, raw) (by simp))) hchg.1
    have h2 := ih (searchRun s (burst [(dt, raw)])) h1.1
      (fun p hp => hgap p (by simp [hp])) (by rw [h1.2]; exact hchg.2)
    have e : burst ((dt, raw) :: rest) = burst [(dt, raw)] ++ burst rest := by
      simp [burst]
    rw [e, searchRun_append]
    refine ⟨h2.1, ?_⟩
    rw [h2.2, h1.2]
    rfl

/-- A burst from the mounted state: the first change may come at any time. -/
theorem burst_from_init (cs : List (Nat × String)) (hgap : ∀ p ∈ cs.tail, p.1 < 180)
    (hchg : changesBuffer "" cs = true) :
    Armed (searchRun SearchState.init (burst cs))
      ∧ (searchRun SearchState.init (burst cs)).searchQuery = finalBuffer "" cs := by
  have h0 : Armed SearchState.init := by
    constructor
    · rfl
    · decide
  cases cs with
  | nil => exact ⟨h0, rfl⟩
  | cons c rest =>
    obtain ⟨dt, raw⟩ := c
    simp only [changesBuffer, Bool.and_eq_true, bne_iff_ne, ne_eq] at hchg
    have h1 := burst_entry_armed SearchState.init dt raw h0 (Or.inr rfl) hchg.1
    have h2 := burst_armed rest (searchRun SearchState.init (burst [(dt, raw)])) h1.1
      (fun p hp => hgap p (by simpa using hp)) (by rw [h1.2]; exact hchg.2)
    have e : burst ((dt, raw) :: rest) = burst [(dt, raw)] ++ burst rest := by
      simp [burst]
    rw [e, searchRun_append]
    refine ⟨h2.1, ?_⟩
    rw [h2.2, h1.2]
    rfl

theorem changesBuffer_take (cs : List (Nat × String)) :
    ∀ (cur : String) (k : Nat), changesBuffer cur cs = true →
      changesBuffer cur (cs.take k) = true := by
  induction cs with
  | nil => intro cur k h; simpa using h
  | cons c rest ih =>
    intro cur k h
    obtain ⟨dt, raw⟩ := c
    cases k with
    | zero => rfl
    | succ k =>
      simp only [changesBuffer, Bool.and_eq_true] at h
      simp only [List.take_succ_cons, changesBuffer, Bool.and_eq_true]
      exact ⟨h.1, ih _ k h.2⟩

theorem mem_tail_take {α : Type} (cs : List α) (k : Nat) (p : α)
    (h : p ∈ (cs.take k).tail) : p ∈ cs.tail := by
  cases cs with
  | nil => simp at h
  | cons c rest =>
    cases k with
    | zero => simp at h
    | succ k =>
      simp only [List.take_succ_cons, List.tail_cons] at h
      simpa using List.mem_of_mem_take h

/-- The armed timer fires during a pause of at least 180 units. -/
theorem advance_fires (s : SearchState) (pause : Nat) (h : Armed s)
    (hlen : 1 ≤ (jsTrim s.searchQuery).length) (hp : 180 ≤ pause) :
    (advance s pause).lookups = [(jsTrim s.searchQuery, 8)] := by
  obtain ⟨hl, ht⟩ := h
  rw [if_pos hlen] at ht
  unfold advance
  rw [ht]
  have : s.now + 180 ≤ s.now + pause := by omega
  simp [this, fireTimer, hl]

theorem commit_activeIndex (old new : SearchState) :
    (commit old new).activeIndex = new.activeIndex := by
  simp only [commit, suggestEffect]
  split_ifs <;> rfl

theorem selectSuggestion_activeIndex (s : SearchState) (item : Option Suggestion) :
    (selectSuggestion s item).activeIndex = s.activeIndex := by
  cases item <;> rfl

theorem advance_activeIndex (s : SearchState) (dt : Nat) :
    (advance s dt).activeIndex = s.activeIndex := by
  unfold advance
  rcases s.timer with _ | ⟨d, q⟩
  · rfl
  · simp only
    split_ifs <;> rfl

/-- No transition takes the active index below `-1`. -/
theorem searchStep_lower (s : SearchState) (e : SearchEvent) (h : -1 ≤ s.activeIndex) :
    -1 ≤ (searchStep s e).activeIndex := by
  unfold searchStep
  rw [commit_activeIndex]
  cases e with
  | keyDown k =>
    cases k with
    | enter =>
      simp only [react, handleKeyDown]
      split_ifs
      · rw [selectSuggestion_activeIndex]; exact h
      · exact h
    | arrowDown =>
      simp only [react, handleKeyDown]
      have : (0 : Int) ≤ (s.suggestions.length : Int) := Int.ofNat_nonneg _
      omega
    | arrowUp =>
      simp only [react, handleKeyDown]
      omega
    | escape => exact h
    | other => exact h
  | change raw => exact h
  | searchClick => exact h
  | mouseEnter idx =>
    simp only [react]
    split_ifs
    · have : (0 : Int) ≤ (idx : Int) := Int.ofNat_nonneg _
      simp only
      omega
    · exact h
  | mouseDown idx =>
    simp only [react]
    split_ifs
    · rw [selectSuggestion_activeIndex]; exact h
    · exact h
  | focus =>
    simp only [react]
    split_ifs <;> exact h
  | blurTimeout => exact h
  | advance dt =>
    simp only [react]
    rw [advance_activeIndex]; exact h
  | lookupSuccess data =>
    simp only [react]
    split_ifs
    · simp
    · exact h
  | lookupFailure =>
    simp only [react]
    split_ifs <;> exact h

theorem searchRun_lower (evs : List SearchEvent) :
    ∀ s : SearchState, -1 ≤ s.activeIndex → -1 ≤ (searchRun s evs).activeIndex := by
  induction evs with
  | nil => intro s h; exact h
  | cons e rest ih => intro s h; exact ih _ (searchStep_lower s e h)

/-- C4, counterexample: ArrowUp in the mounted state (no suggestions, index `-1`)
sets the index to `0`, above `len(suggestions) - 1 = -1`. -/
theorem arrowUp_exceeds_bound :
    (searchRun SearchState.init [.keyDown .arrowUp]).suggestions = []
      ∧ (searchRun SearchState.init [.keyDown .arrowUp]).activeIndex = 0
      ∧ ¬ ((searchRun SearchState.init [.keyDown .arrowUp]).activeIndex
            ≤ ((searchRun SearchState.init [.keyDown .arrowUp]).suggestions.length : Int) - 1) := by
  decide

theorem commit_suggestions (old new : SearchState) :
    (commit old new).suggestions = new.suggestions ∨ (commit old new).suggestions = [] := by
  simp only [commit, suggestEffect]
  split_ifs
  · exact Or.inl rfl
  · exact Or.inl rfl
  · exact Or.inr rfl

theorem selectSuggestion_suggestions (s : SearchState) (item : Option Suggestion) :
    (selectSuggestion s item).suggestions = s.suggestions := by
  cases item <;> rfl

theorem advance_suggestions (s : SearchState) (dt : Nat) :
    (advance s dt).suggestions = s.suggestions := by
  unfold advance
  rcases s.timer with _ | ⟨d, q⟩
  · rfl
  · simp only
    split_ifs <;> rfl

/-- The handler of an event keeps the index inside a list that is not empty. -/
theorem react_upper (s : SearchState) (e : SearchEvent)
    (h : s.suggestions = [] ∨ s.activeIndex ≤ (s.suggestions.length : Int) - 1) :
    (react s e).suggestions = []
      ∨ (react s e).activeIndex ≤ ((react s e).suggestions.length : Int) - 1 := by
  cases e with
  | keyDown k =>
    cases k with
    | enter =>
      simp only [react, handleKeyDown]
      split_ifs
      · rw [selectSuggestion_activeIndex, selectSuggestion_suggestions]; exact h
      · exact Or.inl rfl
    | arrowDown =>
      right
      simp only [react, handleKeyDown]
      omega
    | arrowUp =>
      simp only [react, handleKeyDown]
      rcases h with h | h
      · exact Or.inl h
      · by_cases hl : s.suggestions = []
        · exact Or.inl hl
        · right
          have : 0 < s.suggestions.length := List.length_pos.mpr hl
          omega
    | escape => exact h
    | other => exact h
  | change raw => exact h
  | searchClick => exact Or.inl rfl
  | mouseEnter idx =>
    simp only [react]
    split_ifs with hc
    · right
      simp only [Bool.and_eq_true, decide_eq_true_eq] at hc
      simp only
      omega
    · exact h
  | mouseDown idx =>
    simp only [react]
    split_ifs
    · rw [selectSuggestion_activeIndex, selectSuggestion_suggestions]; exact h
    · exact h
  | focus =>
    simp only [react]
    split_ifs <;> exact h
  | blurTimeout => exact h
  | advance dt =>
    simp only [react]
    rw [advance_activeIndex, advance_suggestions]; exact h
  | lookupSuccess data =>
    simp only [react]
    split_ifs
    · right
      simp only
      omega
    · exact h
  | lookupFailure =>
    simp only [react]
    split_ifs
    · exact Or.inl rfl
    · exact h

theorem searchStep_upper (s : SearchState) (e : SearchEvent)
    (h : s.suggestions = [] ∨ s.activeIndex ≤ (s.suggestions.length : Int) - 1) :
    (searchStep s e).suggestions = []
      ∨ (searchStep s e).activeIndex ≤ ((searchStep s e).suggestions.length : Int) - 1 := by
  unfold searchStep
  rw [commit_activeIndex]
  rcases commit_suggestions s (react s e) with hc | hc
  · rw [hc]; exact react_upper s e h
  · exact Or.inl hc

theorem searchRun_upper (evs : List SearchEvent) :
    ∀ s : SearchState,
      (s.suggestions = [] ∨ s.activeIndex ≤ (s.suggestions.length : Int) - 1) →
      ((searchRun s evs).suggestions = []
        ∨ (searchRun s evs).activeIndex ≤ ((searchRun s evs).suggestions.length : Int) - 1) := by
  induction evs with
  | nil => intro s h; exact h
  | cons e rest ih => intro s h; exact ih _ (searchStep_upper s e h)

/-- C4, amended: in every state reachable from the mounted state the active index is
at least `-1`, and it is at most `len(suggestions) - 1` unless the suggestion list is
empty. -/
theorem activeIndex_reachable (evs : List SearchEvent) :
    -1 ≤ (searchRun SearchState.init evs).activeIndex
      ∧ ((searchRun SearchState.init evs).suggestions = []
          ∨ (searchRun SearchState.init evs).activeIndex
              ≤ ((searchRun SearchState.init evs).suggestions.length : Int) - 1) :=
  ⟨searchRun_lower evs _ (by decide), searchRun_upper evs _ (Or.inl rfl)⟩

/-- C5, the code at the failing input: after ArrowDown and Enter on the candidate
`Red Shoes` the buffer is `Red Shoes` and the panel is closed, but the search term,
and with it the query of the next refresh, is the old buffer `red sho`. -/
theorem enter_on_candidate_submits_old_buffer :
    (searchRun SearchState.init redShoes).searchQuery = "Red Shoes"
      ∧ (searchRun SearchState.init redShoes).showSuggest = false
      ∧ (searchRun SearchState.init redShoes).searchTerm = "red sho"
      ∧ refreshQuery (searchRun SearchState.init redShoes) ≠ "Red Shoes" := by
  decide

/-- C9, the code at the failing input: with buffer `shoes ` (trailing blank) a click
on Search stores the untrimmed buffer as search term, while the buffer itself is
trimmed to `shoes`; Enter does the same. -/
theorem submit_stores_untrimmed_buffer :
    (searchRun SearchState.init [.change "shoes ", .searchClick]).searchTerm = "shoes "
      ∧ (searchRun SearchState.init [.change "shoes ", .searchClick]).searchQuery = "shoes"
      ∧ jsTrim "shoes " = "shoes"
      ∧ (searchRun SearchState.init [.change "shoes ", .keyDown .enter]).searchTerm = "shoes " := by
  decide

/-- C8: for every non-empty burst of live-buffer changes (input events after each of
which the buffer differs from what it was), each less than 180 units after the previous
one, whose final buffer has trimmed length at least one, followed by a pause of at
least 180 units, exactly one lookup is issued, with prefix the trimmed final buffer and
limit 8; at no point of the burst has a lookup been issued. -/
theorem debounce_single_lookup (cs : List (Nat × String)) (pause : Nat)
    (_hne : cs ≠ [])
    (hgap : ∀ p ∈ cs.tail, p.1 < 180)
    (hchg : changesBuffer "" cs = true)
    (hfin : 1 ≤ (jsTrim (finalBuffer "" cs)).length)
    (hpause : 180 ≤ pause) :
    (searchRun SearchState.init (burst cs ++ [.advance pause])).lookups
        = [(jsTrim (finalBuffer "" cs), 8)]
      ∧ ∀ k : Nat, (searchRun SearchState.init (burst (cs.take k))).lookups = [] := by
  constructor
  · have h := burst_from_init cs hgap hchg
    rw [searchRun_append]
    simp only [searchRun, searchStep_advance]
    have := advance_fires _ pause h.1 (by rw [h.2]; exact hfin) hpause
    rw [this, h.2]
  · intro k
    exact (burst_from_init (cs.take k) (fun p hp => hgap p (mem_tail_take cs k p hp))
      (changesBuffer_take cs "" k hchg)).1.1

/-- C8 on the burst `r`, `re`, `red` typed 50 and 100 units apart, then a pause of 180. -/
theorem debounce_single_lookup_witness :
    (searchRun SearchState.init
        (burst [(0, "r"), (50, "re"), (100, "red")] ++ [.advance 180])).lookups
        = [(jsTrim (finalBuffer "" [(0, "r"), (50, "re"), (100, "red")]), 8)]
      ∧ ∀ k : Nat, (searchRun SearchState.init
          (burst (([(0, "r"), (50, "re"), (100, "red")] : List (Nat × String)).take k))).lookups
          = [] :=
  debounce_single_lookup [(0, "r"), (50, "re"), (100, "red")] 180 (by decide) (by decide)
    (by decide) (by decide) (by decide)

/-! ## Consolidated fetch effect -/

theorem cancelLast_length (l : List Refresh) : (cancelLast l).length = l.length := by
  induction l with
  | nil => rfl
  | cons r rest ih =>
    cases rest with
    | nil => rfl
    | cons r2 rest2 => simp only [cancelLast, List.length_cons] at ih ⊢; omega

/-- After the cleanup an entry is either the untouched older run or the newest run,
now cancelled. -/
theorem cancelLast_get (l : List Refresh) :
    ∀ (j : Nat) (r : Refresh), (cancelLast l).get? j = some r →
      (j + 1 = l.length ∧ r.cancelled = true) ∨ (j + 1 < l.length ∧ l.get? j = some r) := by
  induction l with
  | nil => intro j r h; simp [cancelLast] at h
  | cons a rest ih =>
    intro j r h
    cases rest with
    | nil =>
      cases j with
      | zero =>
        simp only [cancelLast, List.get?_cons_zero, Option.some.injEq] at h
        left
        exact ⟨rfl, by rw [← h]⟩
      | succ j => simp [cancelLast] at h
    | cons b rest2 =>
      cases j with
      | zero =>
        simp only [cancelLast, List.get?_cons_zero, Option.some.injEq] at h
        right
        exact ⟨by simp, by simp [h]⟩
      | succ j =>
        simp only [cancelLast, List.get?_cons_succ] at h
        rcases ih j r h with ⟨h1, h2⟩ | ⟨h1, h2⟩
        · left; exact ⟨by simp only [List.length_cons] at h1 ⊢; omega, h2⟩
        · right; exact ⟨by simp only [List.length_cons] at h1 ⊢; omega, by simpa using h2⟩

theorem settleFacets_settles (s : PageState) (k : Nat) (r : Option FacetCounts) :
    Settles s k (settleFacets s k r) := by
  unfold settleFacets
  cases hk : s.runs.get? k with
  | none => exact Or.inl rfl
  | some run =>
    simp only
    cases hf : run.facetsSettled with
    | true => simp only [if_true]; exact Or.inl rfl
    | false =>
      right
      simp only [Bool.false_eq_true, if_false]
      refine ⟨run, { run with facetsSettled := true }, hk, rfl, by simp [hf], ?_, ?_⟩
      · cases r <;> simp only [afterSettle] <;> split_ifs <;> rfl
      · cases r <;> cases hp : run.productsSettled <;>
          cases hc : run.cancelled <;> simp [afterSettle, hp, hc]

theorem settleProducts_settles (s : PageState) (k : Nat) (r : Option (List Product)) :
    Settles s k (settleProducts s k r) := by
  unfold settleProducts
  cases hk : s.runs.get? k with
  | none => exact Or.inl rfl
  | some run =>
    simp only
    cases hf : run.productsSettled with
    | true => simp only [if_true]; exact Or.inl rfl
    | false =>
      right
      simp only [Bool.false_eq_true, if_false]
      refine ⟨run, { run with productsSettled := true }, hk, rfl, by simp [hf], ?_, ?_⟩
      · cases r <;> simp only [afterSettle] <;> split_ifs <;> rfl
      · cases r <;> cases hp : run.facetsSettled <;>
          cases hc : run.cancelled <;> simp [afterSettle, hp, hc]

theorem settles_latest (s t : PageState) (i k : Nat) (h : Latest s i) (hs : Settles s k t) :
    Latest t i ∧ (settled s i = true → settled t i = true)
      ∧ (s.loading = true → t.loading = false → k = i) := by
  rcases hs with rfl | ⟨run, run1, hk, hc, hns, hruns, hload⟩
  · exact ⟨h, id, fun a b => by rw [a] at b; cases b⟩
  · obtain ⟨hlen, hold, hcur, hl⟩ := h
    have hklt : k < s.runs.length := by
      by_contra hge
      have : s.runs.get? k = none := List.get?_eq_none.mpr (by omega)
      rw [this] at hk; cases hk
    by_cases hki : k = i
    · subst hki
      have hrc : run.cancelled = false := hcur run hk
      have hst : settled s k = false := by simp only [settled, hk]; exact hns
      have hget : t.runs.get? k = some run1 := by
        rw [hruns]; simp [List.getElem?_set, hklt]
      have hst' : settled t k = (run1.facetsSettled && run1.productsSettled) := by
        simp only [settled, hget]
      refine ⟨⟨?_, ?_, ?_, ?_⟩, ?_, fun _ _ => rfl⟩
      · rw [hruns, List.length_set]; exact hlen
      · intro j r hj hjr
        rw [hruns] at hjr
        have : s.runs.get? j = some r := by
          simpa [List.getElem?_set, Nat.ne_of_gt hj] using hjr
        exact hold j r hj this
      · intro r hr
        rw [hget] at hr
        cases hr
        rw [hc]; exact hrc
      · rw [hload, hst', hl, hst, hc, hrc]
        cases run1.facetsSettled <;> cases run1.productsSettled <;> rfl
      · intro hh; rw [hst] at hh; cases hh
    · have hlt : k < i := by omega
      have hrc : run.cancelled = true := hold k run hlt hk
      have hgeti : t.runs.get? i = s.runs.get? i := by
        rw [hruns]; simp [List.getElem?_set, hki]
      have hst' : settled t i = settled s i := by simp only [settled, hgeti]
      have hl' : t.loading = s.loading := by
        rw [hload, hc, hrc]; simp
      refine ⟨⟨?_, ?_, ?_, ?_⟩, ?_, ?_⟩
      · rw [hruns, List.length_set]; exact hlen
      · intro j r hj hjr
        rw [hruns] at hjr
        by_cases hkj : k = j
        · subst hkj
          have : r = run1 := by
            simpa [List.getElem?_set, hklt] using hjr.symm
          rw [this, hc]; exact hrc
        · have : s.runs.get? j = some r := by
            simpa [List.getElem?_set, hkj] using hjr
          exact hold j r hj this
      · intro r hr
        rw [hgeti] at hr
        exact hcur r hr
      · rw [hl', hst']; exact hl
      · intro hh; rw [hst']; exact hh
      · intro a b; rw [hl', a] at b; cases b

theorem pageStep_settles (s : PageState) (e : PageEvent) (k : Nat) (h : e.owner = some k) :
    Settles s k (pageStep s e) := by
  cases e with
  | refresh => cases h
  | facetsResponse i r =>
    simp only [PageEvent.owner, Option.some.injEq] at h
    subst h
    exact settleFacets_settles s i r
  | productsResponse i r =>
    simp only [PageEvent.owner, Option.some.injEq] at h
    subst h
    exact settleProducts_settles s i r

theorem settles_olderCancelled (s t : PageState) (k : Nat) (h : OlderCancelled s)
    (hs : Settles s k t) : OlderCancelled t := by
  rcases hs with rfl | ⟨run, run1, hk, hc, _, hruns, _⟩
  · exact h
  · intro j r hj hjr
    rw [hruns, List.length_set] at hj
    rw [hruns] at hjr
    by_cases hkj : k = j
    · subst hkj
      have hklt : k < s.runs.length := by omega
      have : r = run1 := by
        simpa [List.getElem?_set, hklt] using hjr.symm
      rw [this, hc]
      exact h k run hj hk
    · have : s.runs.get? j = some r := by
        simpa [List.getElem?_set, hkj] using hjr
      exact h j r hj this

theorem startRefresh_older (s : PageState) (h : OlderCancelled s) :
    ∀ (j : Nat) (r : Refresh), j < s.runs.length → (startRefresh s).runs.get? j = some r →
      r.cancelled = true := by
  intro j r hj hjr
  have hlt : j < (cancelLast s.runs).length := by rw [cancelLast_length]; exact hj
  have e : (startRefresh s).runs.get? j = (cancelLast s.runs).get? j := by
    simp [startRefresh, List.getElem?_append_left hlt]
  rw [e] at hjr
  rcases cancelLast_get s.runs j r hjr with ⟨_, h2⟩ | ⟨h1, h2⟩
  · exact h2
  · exact h j r h1 h2

theorem startRefresh_olderCancelled (s : PageState) (h : OlderCancelled s) :
    OlderCancelled (startRefresh s) := by
  intro j r hj hjr
  have hlen : (startRefresh s).runs.length = s.runs.length + 1 := by
    simp [startRefresh, cancelLast_length]
  exact startRefresh_older s h j r (by omega) hjr

theorem pageStep_olderCancelled (s : PageState) (e : PageEvent) (h : OlderCancelled s) :
    OlderCancelled (pageStep s e) := by
  cases e with
  | refresh => exact startRefresh_olderCancelled s h
  | facetsResponse i r => exact settles_olderCancelled s _ i h (settleFacets_settles s i r)
  | productsResponse i r => exact settles_olderCancelled s _ i h (settleProducts_settles s i r)

theorem pageRun_olderCancelled (evs : List PageEvent) :
    ∀ s : PageState, OlderCancelled s → OlderCancelled (pageRun s evs) := by
  induction evs with
  | nil => intro s h; exact h
  | cons e rest ih => intro s h; exact ih _ (pageStep_olderCancelled s e h)

theorem init_olderCancelled : OlderCancelled PageState.init := by
  intro j r hj _
  simp [PageState.init] at hj

/-- A refresh started in a reachable state is the newest run, with `loading` set. -/
theorem startRefresh_latest (s : PageState) (h : OlderCancelled s) :
    Latest (startRefresh s) s.runs.length ∧ (startRefresh s).loading = true
      ∧ settled (startRefresh s) s.runs.length = false := by
  have hget : (startRefresh s).runs.get? s.runs.length =
      some { cancelled := false, facetsSettled := false, productsSettled := false } := by
    have : (cancelLast s.runs).length ≤ s.runs.length := by rw [cancelLast_length]
    simp [startRefresh, List.getElem?_append_right this, cancelLast_length]
  have hst : settled (startRefresh s) s.runs.length = false := by
    simp only [settled, hget]; rfl
  refine ⟨⟨?_, startRefresh_older s h, ?_, ?_⟩, rfl, hst⟩
  · simp [startRefresh, cancelLast_length]
  · intro r hr
    rw [hget] at hr
    cases hr
    rfl
  · rw [hst]; rfl

theorem noRefresh_cons (e : PageEvent) (rest : List PageEvent)
    (h : noRefresh (e :: rest) = true) :
    (∃ k, e.owner = some k) ∧ noRefresh rest = true := by
  cases e with
  | refresh => simp [noRefresh] at h
  | facetsResponse i r => exact ⟨⟨i, rfl⟩, by simpa [noRefresh] using h⟩
  | productsResponse i r => exact ⟨⟨i, rfl⟩, by simpa [noRefresh] using h⟩

/-- While the newest run is not superseded, `loading` falls at most once, exactly when
that run becomes fully settled, and only a response of that run makes it fall. -/
theorem latest_trace (i : Nat) (mid : List PageEvent) :
    ∀ s : PageState, Latest s i → noRefresh mid = true →
      Latest (pageRun s mid) i
        ∧ (settled s i = true → settled (pageRun s mid) i = true)
        ∧ falls s mid = (if settled (pageRun s mid) i && !settled s i then 1 else 0)
        ∧ fallsBy i s mid = falls s mid := by
  induction mid with
  | nil =>
    intro s h _
    refine ⟨h, id, ?_, rfl⟩
    simp only [pageRun, falls]
    by_cases h0 : settled s i = true <;> simp [h0]
  | cons e rest ih =>
    intro s h hmid
    obtain ⟨⟨k, hk⟩, hrest⟩ := noRefresh_cons e rest hmid
    obtain ⟨hlat, hstick, hfall⟩ := settles_latest s _ i k h (pageStep_settles s e k hk)
    obtain ⟨ih1, ih2, ih3, ih4⟩ := ih (pageStep s e) hlat hrest
    have hl : s.loading = !settled s i := h.2.2.2
    have hl' : (pageStep s e).loading = !settled (pageStep s e) i := hlat.2.2.2
    refine ⟨ih1, fun a => ih2 (hstick a), ?_, ?_⟩
    · simp only [falls, pageRun, ih3, hl, hl']
      by_cases h0 : settled s i = true <;> by_cases h1 : settled (pageStep s e) i = true <;>
        by_cases h2 : settled (pageRun (pageStep s e) rest) i = true <;> simp_all
    · simp only [fallsBy, falls, ih4]
      congr 1
      by_cases hc : (s.loading && !(pageStep s e).loading) = true
      · have hki : k = i := by
          simp only [Bool.and_eq_true, Bool.not_eq_true'] at hc
          exact hfall hc.1 hc.2
        simp [hc, hk, hki]
      · simp only [Bool.not_eq_true] at hc
        simp [hc]

theorem pageRun_append (s : PageState) (xs ys : List PageEvent) :
    pageRun s (xs ++ ys) = pageRun (pageRun s xs) ys := by
  induction xs generalizing s with
  | nil => rfl
  | cons e rest ih => exact ih (pageStep s e)

theorem cancelLast_get_some (l : List Refresh) (j : Nat) (hj : j < l.length) :
    ∃ r, (cancelLast l).get? j = some r := by
  have : j < (cancelLast l).length := by rw [cancelLast_length]; exact hj
  exact ⟨(cancelLast l).get ⟨j, this⟩, List.get?_eq_get this⟩

theorem superseded_lt (s : PageState) (i : Nat) (h : Superseded s i) : i < s.runs.length := by
  obtain ⟨r, hr, _⟩ := h
  by_contra hge
  have : s.runs.get? i = none := List.get?_eq_none.mpr (by omega)
  rw [this] at hr; cases hr

/-- A cancelled run stays cancelled, and its responses leave `loading` alone. -/
theorem superseded_step (s : PageState) (i : Nat) (e : PageEvent) (h : Superseded s i) :
    Superseded (pageStep s e) i
      ∧ ((s.loading && !(pageStep s e).loading && decide (e.owner = some i)) = false) := by
  have hlt := superseded_lt s i h
  obtain ⟨r, hr, hc⟩ := h
  cases ho : e.owner with
  | none =>
    cases e with
    | refresh =>
      refine ⟨?_, by simp [PageEvent.owner]⟩
      obtain ⟨r', hr'⟩ := cancelLast_get_some s.runs i hlt
      have hlt' : i < (cancelLast s.runs).length := by rw [cancelLast_length]; exact hlt
      have e1 : (pageStep s .refresh).runs.get? i = some r' := by
        simp only [pageStep, startRefresh]
        rw [← hr']
        simp [List.getElem?_append_left hlt']
      refine ⟨r', e1, ?_⟩
      rcases cancelLast_get s.runs i r' hr' with ⟨_, h2⟩ | ⟨_, h2⟩
      · exact h2
      · rw [hr] at h2; cases h2; exact hc
    | facetsResponse k x => cases ho
    | productsResponse k x => cases ho
  | some k =>
    rcases pageStep_settles s e k ho with heq | ⟨run, run1, hk, hc1, _, hruns, hload⟩
    · rw [heq]
      refine ⟨⟨r, hr, hc⟩, ?_⟩
      cases s.loading <;> simp
    · by_cases hki : k = i
      · subst hki
        rw [hr] at hk
        cases hk
        have hget : (pageStep s e).runs.get? k = some run1 := by
          rw [hruns]; simp [List.getElem?_set, hlt]
        refine ⟨⟨run1, hget, by rw [hc1]; exact hc⟩, ?_⟩
        have : (pageStep s e).loading = s.loading := by
          rw [hload, hc1, hc]; simp
        rw [this]
        cases s.loading <;> simp
      · have hget : (pageStep s e).runs.get? i = some r := by
          rw [hruns, ← hr]; simp [List.getElem?_set, hki]
        refine ⟨⟨r, hget, hc⟩, ?_⟩
        have : ¬ (some k = some i) := by
          intro hh; exact hki (Option.some.inj hh)
        simp [this]

theorem superseded_trace (i : Nat) (post : List PageEvent) :
    ∀ s : PageState, Superseded s i → fallsBy i s post = 0 := by
  induction post with
  | nil => intro s _; rfl
  | cons e rest ih =>
    intro s h
    obtain ⟨h1, h2⟩ := superseded_step s i e h
    simp only [fallsBy, h2, ih _ h1]
    simp

/-- The newest run is cancelled by the next refresh. -/
theorem latest_superseded (s : PageState) (i : Nat) (h : Latest s i) :
    Superseded (pageStep s .refresh) i := by
  obtain ⟨hlen, _, _, _⟩ := h
  have hlt : i < s.runs.length := by omega
  obtain ⟨r', hr'⟩ := cancelLast_get_some s.runs i hlt
  have hlt' : i < (cancelLast s.runs).length := by rw [cancelLast_length]; exact hlt
  have e1 : (pageStep s .refresh).runs.get? i = some r' := by
    simp only [pageStep, startRefresh]
    rw [← hr']
    simp [List.getElem?_append_left hlt']
  refine ⟨r', e1, ?_⟩
  rcases cancelLast_get s.runs i r' hr' with ⟨_, h2⟩ | ⟨h1, _⟩
  · exact h2
  · omega

/-- C1, the code at the failing input: refresh A is followed by refresh B before any
response; B's two responses arrive first, A's two responses after them.  The visible
products and facets are then those of A, not those that B alone produces. -/
theorem stale_response_overwrites :
    (pageRun PageState.init staleLast).products = [{ id := 1, name := "A" }]
      ∧ (pageRun PageState.init staleLast).facets
          = { categories := [("a", 1)], product_types := [], brands := [] }
      ∧ (pageRun PageState.init latestAlone).products = [{ id := 2, name := "B" }]
      ∧ (pageRun PageState.init latestAlone).facets
          = { categories := [("b", 1)], product_types := [], brands := [] }
      ∧ (pageRun PageState.init staleLast).products
          ≠ (pageRun PageState.init latestAlone).products
      ∧ (pageRun PageState.init staleLast).facets
          ≠ (pageRun PageState.init latestAlone).facets := by
  decide

/-- C6, counterexample: of two overlapping refreshes the first one is triggered and both
of its fetches settle (one fails), yet `loading` is still `true` afterwards and no
response of that refresh ever takes `loading` from `true` to `false`; over the two
refreshes `loading` falls once, not twice. -/
theorem superseded_refresh_never_clears_loading :
    settled (pageRun PageState.init (superseded.take 4)) 0 = true
      ∧ (pageRun PageState.init (superseded.take 4)).loading = true
      ∧ fallsBy 0 PageState.init superseded = 0
      ∧ falls PageState.init superseded = 1 := by
  decide

theorem afterSettle_runs (s : PageState) (r : Refresh) : (afterSettle s r).runs = s.runs := by
  unfold afterSettle
  split_ifs <;> rfl

theorem settleFacets_runs (s : PageState) (k : Nat) (r : Option FacetCounts) :
    (settleFacets s k r).runs =
      (match s.runs.get? k with
        | none => s.runs
        | some run =>
          if run.facetsSettled then s.runs
          else s.runs.set k { run with facetsSettled := true }) := by
  unfold settleFacets
  cases hk : s.runs.get? k with
  | none => rfl
  | some run =>
    simp only
    split_ifs
    · rfl
    · rw [afterSettle_runs]; cases r <;> rfl

theorem settleProducts_runs (s : PageState) (k : Nat) (r : Option (List Product)) :
    (settleProducts s k r).runs =
      (match s.runs.get? k with
        | none => s.runs
        | some run =>
          if run.productsSettled then s.runs
          else s.runs.set k { run with productsSettled := true }) := by
  unfold settleProducts
  cases hk : s.runs.get? k with
  | none => rfl
  | some run =>
    simp only
    split_ifs
    · rfl
    · rw [afterSettle_runs]; cases r <;> rfl

theorem get_lt_some (l : List Refresh) (i : Nat) (hi : i < l.length) :
    ∃ r, l.get? i = some r :=
  ⟨l.get ⟨i, hi⟩, List.get?_eq_get hi⟩

/-- A facets response of run `k` sets the facets flag of run `k` and no other flag. -/
theorem settleFacets_flags (s : PageState) (k i : Nat) (r : Option FacetCounts)
    (hi : i < s.runs.length) :
    (settleFacets s k r).runs.length = s.runs.length
      ∧ facetsDone (settleFacets s k r) i = (facetsDone s i || decide (k = i))
      ∧ productsDone (settleFacets s k r) i = productsDone s i := by
  obtain ⟨ri, hri⟩ := get_lt_some s.runs i hi
  have hruns := settleFacets_runs s k r
  by_cases hki : k = i
  · subst hki
    rw [hri] at hruns
    simp only at hruns
    by_cases hf : ri.facetsSettled = true
    · rw [if_pos hf] at hruns
      simp only [facetsDone, productsDone, hruns, hri, hf]
      simp
    · rw [if_neg hf] at hruns
      have hget : (settleFacets s k r).runs.get? k
          = some { ri with facetsSettled := true } := by
        rw [hruns]; simp [List.getElem?_set, hi]
      refine ⟨by rw [hruns, List.length_set], ?_, ?_⟩
      · simp only [facetsDone, hget]; simp
      · simp only [productsDone, hget, hri]
  · cases hk : s.runs.get? k with
    | none =>
      rw [hk] at hruns
      simp only at hruns
      simp only [facetsDone, productsDone, hruns]
      simp [hki]
    | some run =>
      rw [hk] at hruns
      simp only at hruns
      by_cases hf : run.facetsSettled = true
      · rw [if_pos hf] at hruns
        simp only [facetsDone, productsDone, hruns]
        simp [hki]
      · rw [if_neg hf] at hruns
        have hget : (settleFacets s k r).runs.get? i = s.runs.get? i := by
          rw [hruns]; simp [List.getElem?_set, hki]
        refine ⟨by rw [hruns, List.length_set], ?_, ?_⟩
        · simp only [facetsDone, hget]; simp [hki]
        · simp only [productsDone, hget]

/-- A products response of run `k` sets the products flag of run `k` and no other flag. -/
theorem settleProducts_flags (s : PageState) (k i : Nat) (r : Option (List Product))
    (hi : i < s.runs.length) :
    (settleProducts s k r).runs.length = s.runs.length
      ∧ facetsDone (settleProducts s k r) i = facetsDone s i
      ∧ productsDone (settleProducts s k r) i = (productsDone s i || decide (k = i)) := by
  obtain ⟨ri, hri⟩ := get_lt_some s.runs i hi
  have hruns := settleProducts_runs s k r
  by_cases hki : k = i
  · subst hki
    rw [hri] at hruns
    simp only at hruns
    by_cases hf : ri.productsSettled = true
    · rw [if_pos hf] at hruns
      simp only [facetsDone, productsDone, hruns, hri, hf]
      simp
    · rw [if_neg hf] at hruns
      have hget : (settleProducts s k r).runs.get? k
          = some { ri with productsSettled := true } := by
        rw [hruns]; simp [List.getElem?_set, hi]
      refine ⟨by rw [hruns, List.length_set], ?_, ?_⟩
      · simp only [facetsDone, hget, hri]
      · simp only [productsDone, hget]; simp
  · cases hk : s.runs.get? k with
    | none =>
      rw [hk] at hruns
      simp only at hruns
      simp only [facetsDone, productsDone, hruns]
      simp [hki]
    | some run =>
      rw [hk] at hruns
      simp only at hruns
      by_cases hf : run.productsSettled = true
      · rw [if_pos hf] at hruns
        simp only [facetsDone, productsDone, hruns]
        simp [hki]
      · rw [if_neg hf] at hruns
        have hget : (settleProducts s k r).runs.get? i = s.runs.get? i := by
          rw [hruns]; simp [List.getElem?_set, hki]
        refine ⟨by rw [hruns, List.length_set], ?_, ?_⟩
        · simp only [facetsDone, hget]
        · simp only [productsDone, hget]; simp [hki]

/-- Along a trace without a refresh, the flags of run `i` are those it had, plus one
for each kind of response of run `i` in the trace. -/
theorem flags_trace (i : Nat) (mid : List PageEvent) :
    ∀ s : PageState, i < s.runs.length → noRefresh mid = true →
      facetsDone (pageRun s mid) i = (facetsDone s i || facetsArrived i mid)
        ∧ productsDone (pageRun s mid) i = (productsDone s i || productsArrived i mid) := by
  induction mid with
  | nil => intro s _ _; simp [pageRun, facetsArrived, productsArrived]
  | cons e rest ih =>
    intro s hi hmid
    cases e with
    | refresh => simp [noRefresh] at hmid
    | facetsResponse k r =>
      have hrest : noRefresh rest = true := by simpa [noRefresh] using hmid
      obtain ⟨hlen, hf, hp⟩ := settleFacets_flags s k i r hi
      obtain ⟨h1, h2⟩ := ih (settleFacets s k r) (by rw [hlen]; exact hi) hrest
      simp only [pageRun, pageStep, facetsArrived, productsArrived, h1, h2, hf, hp,
        Bool.or_assoc, and_self]
    | productsResponse k r =>
      have hrest : noRefresh rest = true := by simpa [noRefresh] using hmid
      obtain ⟨hlen, hf, hp⟩ := settleProducts_flags s k i r hi
      obtain ⟨h1, h2⟩ := ih (settleProducts s k r) (by rw [hlen]; exact hi) hrest
      simp only [pageRun, pageStep, facetsArrived, productsArrived, h1, h2, hf, hp,
        Bool.or_assoc, and_self]

theorem settled_eq_flags (s : PageState) (i : Nat) :
    settled s i = (facetsDone s i && productsDone s i) := by
  unfold settled facetsDone productsDone
  cases s.runs.get? i <;> rfl

/-- Both fetches of a freshly started refresh are outstanding. -/
theorem started_flags (pre : List PageEvent) :
    newest pre < (started pre).runs.length
      ∧ facetsDone (started pre) (newest pre) = false
      ∧ productsDone (started pre) (newest pre) = false := by
  have hlen : (started pre).runs.length = newest pre + 1 := by
    simp [started, newest, pageStep, startRefresh, cancelLast_length]
  have hget : (started pre).runs.get? (newest pre) =
      some { cancelled := false, facetsSettled := false, productsSettled := false } := by
    have : (cancelLast (pageRun PageState.init pre).runs).length
        ≤ (pageRun PageState.init pre).runs.length := by rw [cancelLast_length]
    simp [started, newest, pageStep, startRefresh, List.getElem?_append_right this,
      cancelLast_length]
  refine ⟨by omega, ?_, ?_⟩
  · simp only [facetsDone, hget]
  · simp only [productsDone, hget]

/-- Once both responses of the newest run are in the trace, the run is settled. -/
theorem settled_started (pre mid : List PageEvent) (hmid : noRefresh mid = true) :
    settled (pageRun (started pre) mid) (newest pre)
      = (facetsArrived (newest pre) mid && productsArrived (newest pre) mid) := by
  obtain ⟨hlt, hf, hp⟩ := started_flags pre
  obtain ⟨h1, h2⟩ := flags_trace (newest pre) mid (started pre) hlt hmid
  rw [settled_eq_flags, h1, h2, hf, hp]
  simp

/-- C6, amended: a refresh sets `loading` to `true` when it starts.  As long as no
further refresh starts, `loading` is `false` exactly if a facets response and a products
response of that refresh have both arrived, each successful or failed; it has fallen
exactly once if they have and not at all otherwise, and every fall is caused by a
response of that refresh.  Once a further refresh has started, no response of the
superseded refresh clears `loading`. -/
theorem loading_falls_once (pre mid mid2 post : List PageEvent)
    (hmid : noRefresh mid = true) (hmid2 : noRefresh mid2 = true) :
    (started pre).loading = true
      ∧ (pageRun (started pre) mid).loading
          = !(facetsArrived (newest pre) mid && productsArrived (newest pre) mid)
      ∧ falls (started pre) mid
          = (if facetsArrived (newest pre) mid && productsArrived (newest pre) mid
              then 1 else 0)
      ∧ fallsBy (newest pre) (started pre) mid = falls (started pre) mid
      ∧ fallsBy (newest pre) (pageStep (pageRun (started pre) mid2) .refresh) post = 0 := by
  have hreach : OlderCancelled (pageRun PageState.init pre) :=
    pageRun_olderCancelled pre _ init_olderCancelled
  obtain ⟨hlat, hload, hst⟩ := startRefresh_latest _ hreach
  obtain ⟨h1, _, h3, h4⟩ := latest_trace (newest pre) mid (started pre) hlat hmid
  obtain ⟨k1, _, _, _⟩ := latest_trace (newest pre) mid2 (started pre) hlat hmid2
  have hset := settled_started pre mid hmid
  refine ⟨hload, ?_, ?_, h4, ?_⟩
  · rw [← hset]; exact h1.2.2.2
  · rw [h3, ← hset]
    have : settled (started pre) (newest pre) = false := hst
    rw [this]
    simp
  · exact superseded_trace _ post _ (latest_superseded _ _ k1)

/-- C6 amended, on the second of two refreshes: a late response of the first refresh
arrives, then the facets request fails and the products request succeeds; and on a
run in which that refresh is superseded after its facets response. -/
theorem loading_falls_once_witness :
    (started [.refresh]).loading = true
      ∧ (pageRun (started [.refresh])
            [.productsResponse 0 (some []), .facetsResponse 1 none,
             .productsResponse 1 (some [{ id := 2, name := "B" }])]).loading
          = !(facetsArrived (newest [.refresh])
                [.productsResponse 0 (some []), .facetsResponse 1 none,
                 .productsResponse 1 (some [{ id := 2, name := "B" }])]
              && productsArrived (newest [.refresh])
                [.productsResponse 0 (some []), .facetsResponse 1 none,
                 .productsResponse 1 (some [{ id := 2, name := "B" }])])
      ∧ falls (started [.refresh])
            [.productsResponse 0 (some []), .facetsResponse 1 none,
             .productsResponse 1 (some [{ id := 2, name := "B" }])]
          = (if facetsArrived (newest [.refresh])
                [.productsResponse 0 (some []), .facetsResponse 1 none,
                 .productsResponse 1 (some [{ id := 2, name := "B" }])]
              && productsArrived (newest [.refresh])
                [.productsResponse 0 (some []), .facetsResponse 1 none,
                 .productsResponse 1 (some [{ id := 2, name := "B" }])]
             then 1 else 0)
      ∧ fallsBy (newest [.refresh]) (started [.refresh])
            [.productsResponse 0 (some []), .facetsResponse 1 none,
             .productsResponse 1 (some [{ id := 2, name := "B" }])]
          = falls (started [.refresh])
            [.productsResponse 0 (some []), .facetsResponse 1 none,
             .productsResponse 1 (some [{ id := 2, name := "B" }])]
      ∧ fallsBy (newest [.refresh])
            (pageStep (pageRun (started [.refresh]) [.facetsResponse 1 none]) .refresh)
            [.productsResponse 1 (some [])] = 0 :=
  loading_falls_once [.refresh]
    [.productsResponse 0 (some []), .facetsResponse 1 none,
     .productsResponse 1 (some [{ id := 2, name := "B" }])]
    [.facetsResponse 1 none] [.productsResponse 1 (some [])] (by decide) (by decide)

/-! ## Detail view -/

theorem cancelLastDetail_length (l : List DetailRun) :
    (cancelLastDetail l).length = l.length := by
  induction l with
  | nil => rfl
  | cons r rest ih =>
    cases rest with
    | nil => rfl
    | cons r2 rest2 => simp only [cancelLastDetail, List.length_cons] at ih ⊢; omega

theorem cancelLastDetail_snoc (l : List DetailRun) (r : DetailRun) :
    cancelLastDetail (l ++ [r]) = l ++ [{ r with cancelled := true }] := by
  induction l with
  | nil => rfl
  | cons a rest ih =>
    cases rest with
    | nil => rfl
    | cons b rest2 =>
      have e : cancelLastDetail (a :: b :: rest2 ++ [r])
          = a :: cancelLastDetail (b :: rest2 ++ [r]) := rfl
      rw [e, ih]
      rfl

/-- The state after the view is opened for `X` and then for `Y`: both requests are
outstanding, the run for `X` is cancelled. -/
theorem open_twice (s : ModalState) (X Y : Nat) (hclosed : s.detailOpen = false)
    (hX : X ≠ 0) (hY : Y ≠ 0) (hXY : X ≠ Y) :
    modalRun s [.openDetails X, .openDetails Y] =
      { detailOpen := true, activeProductId := some Y, loading := true, error := none,
        data := s.data,
        runs := cancelLastDetail s.runs ++
          [{ cancelled := true, pending := true }, { cancelled := false, pending := true }] } := by
  simp [modalRun, modalStep, modalCommit, detailEffect, hclosed, truthyId, hX, hY,
    Ne.symm hXY, cancelLastDetail_snoc]

theorem get_snoc2_fst {α : Type} (L : List α) (a b : α) :
    (L ++ [a, b]).get? L.length = some a := by
  induction L with
  | nil => rfl
  | cons x rest ih => simpa using ih

theorem get_snoc2_snd {α : Type} (L : List α) (a b : α) :
    (L ++ [a, b]).get? (L.length + 1) = some b := by
  induction L with
  | nil => rfl
  | cons x rest ih => simpa using ih

theorem set_snoc2_fst {α : Type} (L : List α) (a b c : α) :
    (L ++ [a, b]).set L.length c = L ++ [c, b] := by
  induction L with
  | nil => rfl
  | cons x rest ih => simp only [List.cons_append, List.length_cons, List.set_cons_succ, ih]

theorem set_snoc2_snd {α : Type} (L : List α) (a b c : α) :
    (L ++ [a, b]).set (L.length + 1) c = L ++ [a, c] := by
  induction L with
  | nil => rfl
  | cons x rest ih => simp only [List.cons_append, List.length_cons, List.set_cons_succ, ih]

/-- The response of a cancelled run only marks the request as settled. -/
theorem settleDetail_cancelled (t : ModalState) (i : Nat) (r : Option Detail)
    (h : t.runs.get? i = some { cancelled := true, pending := true }) :
    settleDetail t i r =
      { t with runs := t.runs.set i { cancelled := true, pending := false } } := by
  unfold settleDetail
  rw [h]
  cases r <;> rfl

/-- The response of a run that is not cancelled is applied. -/
theorem settleDetail_live (t : ModalState) (i : Nat) (r : Option Detail)
    (h : t.runs.get? i = some { cancelled := false, pending := true }) :
    settleDetail t i r =
      (match r with
        | some d =>
          { t with runs := t.runs.set i { cancelled := false, pending := false },
                   data := some d, loading := false }
        | none =>
          { t with runs := t.runs.set i { cancelled := false, pending := false },
                   error := some "Failed to load product details", loading := false }) := by
  unfold settleDetail
  rw [h]
  cases r <;> rfl

/-- The response of the cancelled older run of two only marks its request as settled. -/
theorem response_older (o : Bool) (p : Option Nat) (l : Bool) (e : Option String)
    (d : Option Detail) (L : List DetailRun) (b : DetailRun) (r : Option Detail) :
    settleDetail ⟨o, p, l, e, d, L ++ [{ cancelled := true, pending := true }, b]⟩ L.length r
      = ⟨o, p, l, e, d, L ++ [{ cancelled := true, pending := false }, b]⟩ := by
  rw [settleDetail_cancelled _ _ _ (get_snoc2_fst _ _ _)]
  simp only [set_snoc2_fst]

/-- A successful response of the newer run of two stores the entity and clears `loading`. -/
theorem response_newer_some (o : Bool) (p : Option Nat) (l : Bool) (e : Option String)
    (d : Option Detail) (L : List DetailRun) (a : DetailRun) (x : Detail) :
    settleDetail ⟨o, p, l, e, d, L ++ [a, { cancelled := false, pending := true }]⟩
        (L.length + 1) (some x)
      = ⟨o, p, false, e, some x, L ++ [a, { cancelled := false, pending := false }]⟩ := by
  rw [settleDetail_live _ _ _ (get_snoc2_snd _ _ _)]
  simp only [set_snoc2_snd]

/-- A failed response of the newer run of two stores the error and clears `loading`. -/
theorem response_newer_none (o : Bool) (p : Option Nat) (l : Bool) (e : Option String)
    (d : Option Detail) (L : List DetailRun) (a : DetailRun) :
    settleDetail ⟨o, p, l, e, d, L ++ [a, { cancelled := false, pending := true }]⟩
        (L.length + 1) none
      = ⟨o, p, false, some "Failed to load product details", d,
          L ++ [a, { cancelled := false, pending := false }]⟩ := by
  rw [settleDetail_live _ _ _ (get_snoc2_snd _ _ _)]
  simp only [set_snoc2_snd]

/-- C7: the closed detail view is opened for `X` and then for a different `Y` (both
non-zero, so that a request is issued for each) while the request for `X` is
outstanding.  Both requests are then in flight; the response for `X`
writes neither data nor error nor loading, whether it arrives before or after the one
for `Y`; in both arrival orders the displayed state is the one the response for `Y`
alone produces. -/
theorem stale_detail_discarded (s : ModalState) (X Y : Nat) (rX rY : Option Detail)
    (hclosed : s.detailOpen = false) (hX : X ≠ 0) (hY : Y ≠ 0) (hXY : X ≠ Y) :
    (modalRun s [.openDetails X, .openDetails Y]).runs.get? s.runs.length
        = some { cancelled := true, pending := true }
      ∧ (modalRun s [.openDetails X, .openDetails Y]).runs.get? (s.runs.length + 1)
        = some { cancelled := false, pending := true }
      ∧ (modalRun s [.openDetails X, .openDetails Y, .response s.runs.length rX]).view
        = (modalRun s [.openDetails X, .openDetails Y]).view
      ∧ (modalRun s [.openDetails X, .openDetails Y,
            .response s.runs.length rX, .response (s.runs.length + 1) rY]).view
        = (modalRun s [.openDetails X, .openDetails Y, .response (s.runs.length + 1) rY]).view
      ∧ (modalRun s [.openDetails X, .openDetails Y,
            .response (s.runs.length + 1) rY, .response s.runs.length rX]).view
        = (modalRun s [.openDetails X, .openDetails Y, .response (s.runs.length + 1) rY]).view
      ∧ (modalRun s [.openDetails X, .openDetails Y, .response (s.runs.length + 1) rY]).view
        = (match rY with
            | some d => (some d, none, false)
            | none => (s.data, some "Failed to load product details", false)) := by
  have hL := cancelLastDetail_length s.runs
  have e2 : ∀ rest, modalRun s (.openDetails X :: .openDetails Y :: rest)
      = modalRun (modalRun s [.openDetails X, .openDetails Y]) rest := fun _ => rfl
  rw [e2 [.response s.runs.length rX], e2 [.response s.runs.length rX, _],
    e2 [.response (s.runs.length + 1) rY, _], e2 [.response (s.runs.length + 1) rY],
    open_twice s X Y hclosed hX hY hXY, ← hL]
  refine ⟨get_snoc2_fst _ _ _, get_snoc2_snd _ _ _, ?_, ?_, ?_, ?_⟩
  · simp only [modalRun, modalStep, response_older]
    rfl
  · cases rY <;>
      simp only [modalRun, modalStep, response_older, response_newer_some, response_newer_none]
      <;> rfl
  · cases rY <;>
      simp only [modalRun, modalStep, response_older, response_newer_some, response_newer_none]
      <;> rfl
  · cases rY <;>
      simp only [modalRun, modalStep, response_newer_some, response_newer_none] <;> rfl

/-- C7 on the mounted view, ids 1 and 2, where the request for 1 succeeds late. -/
theorem stale_detail_discarded_witness :
    (modalRun ModalState.init [.openDetails 1, .openDetails 2]).runs.get?
          ModalState.init.runs.length
        = some { cancelled := true, pending := true }
      ∧ (modalRun ModalState.init [.openDetails 1, .openDetails 2]).runs.get?
          (ModalState.init.runs.length + 1)
        = some { cancelled := false, pending := true }
      ∧ (modalRun ModalState.init [.openDetails 1, .openDetails 2,
            .response ModalState.init.runs.length (some { id := 1, name := "X" })]).view
        = (modalRun ModalState.init [.openDetails 1, .openDetails 2]).view
      ∧ (modalRun ModalState.init [.openDetails 1, .openDetails 2,
            .response ModalState.init.runs.length (some { id := 1, name := "X" }),
            .response (ModalState.init.runs.length + 1) (some { id := 2, name := "Y" })]).view
        = (modalRun ModalState.init [.openDetails 1, .openDetails 2,
            .response (ModalState.init.runs.length + 1) (some { id := 2, name := "Y" })]).view
      ∧ (modalRun ModalState.init [.openDetails 1, .openDetails 2,
            .response (ModalState.init.runs.length + 1) (some { id := 2, name := "Y" }),
            .response ModalState.init.runs.length (some { id := 1, name := "X" })]).view
        = (modalRun ModalState.init [.openDetails 1, .openDetails 2,
            .response (ModalState.init.runs.length + 1) (some { id := 2, name := "Y" })]).view
      ∧ (modalRun ModalState.init [.openDetails 1, .openDetails 2,
            .response (ModalState.init.runs.length + 1) (some { id := 2, name := "Y" })]).view
        = (match (some { id := 2, name := "Y" } : Option Detail) with
            | some d => (some d, none, false)
            | none => (ModalState.init.data, some "Failed to load product details", false)) :=
  stale_detail_discarded ModalState.init 1 2 (some { id := 1, name := "X" })
    (some { id := 2, name := "Y" }) rfl (by decide) (by decide) (by decide)

end HybridSearch
